import Mathlib

/-!
A verification development for the CTO tenancy identity synchronizer
(`main.go`).  The program reconciles a roster of people from a corporate
identity feed against an identity provider (IDCS), business applications
(VBCS apps "ECAL" and "STS"), and a content share (OCE).

Strings are modelled as `List Char`; the helpers below embed the Go
`strings` package operations used by the program (for the ASCII data the
program handles).  Each outbound HTTP call is resolved through an
environment (`SyncEnv`) that maps the call's inputs to its outcome, and
every embedded function additionally returns the list of outbound
effects it issued, so that theorems can speak about which downstream
calls were (or were not) made.
-/

namespace CtoSync

/-- Go `strings.Split(s, sep)` for a single-character separator:
splits on every occurrence; the empty string splits to `[[]]`. -/
def splitOnChar (c : Char) : List Char → List (List Char)
  | [] => [[]]
  | x :: xs =>
    match splitOnChar c xs with
    | [] => [[]]
    | h :: t => if x = c then [] :: h :: t else (x :: h) :: t

/-- Does `l` start with `pat`?  (Go `strings.HasPrefix`.) -/
def startsWithSeq : List Char → List Char → Bool
  | [], _ => true
  | _ :: _, [] => false
  | p :: ps, b :: bs => p = b && startsWithSeq ps bs

/-- Go `strings.Contains(l, pat)`. -/
def containsSeq (pat : List Char) : List Char → Bool
  | [] => pat.isEmpty
  | x :: rest => startsWithSeq pat (x :: rest) || containsSeq pat rest

/-- Recursion core of `replaceSeq`; structural on the fuel, which the
wrapper sets to the input's length (enough, since each step consumes at
least one character when the pattern is non-empty). -/
def replaceSeqGo (pat rep : List Char) : Nat → List Char → List Char
  | _, [] => []
  | 0, s => s
  | fuel + 1, x :: xs =>
    if pat.isEmpty then x :: xs
    else if startsWithSeq pat (x :: xs) then
      rep ++ replaceSeqGo pat rep fuel ((x :: xs).drop pat.length)
    else
      x :: replaceSeqGo pat rep fuel xs

/-- Go `strings.ReplaceAll(s, pat, rep)` for a non-empty `pat`
(every call in the program uses a non-empty pattern): replace
non-overlapping occurrences left to right. -/
def replaceSeq (pat rep : List Char) (s : List Char) : List Char :=
  replaceSeqGo pat rep s.length s

/-- Go `strings.ToLower` character-wise (ASCII range, which covers the
directory names and emails the program manipulates). -/
def toLowerChars (l : List Char) : List Char := l.map Char.toLower

/-- Go `strings.ToUpper` character-wise (ASCII range). -/
def toUpperChars (l : List Char) : List Char := l.map Char.toUpper

/-- Go `unicode.IsSpace` restricted to the ASCII whitespace characters. -/
def isSpaceChar (c : Char) : Bool :=
  c = ' ' || c = '\t' || c = '\n' || c = Char.ofNat 11 || c = Char.ofNat 12 || c = '\r'

/-- Go `strings.TrimSpace`. -/
def trimSpace (l : List Char) : List Char :=
  ((l.dropWhile isSpaceChar).reverse.dropWhile isSpaceChar).reverse

/-- The struct `AriaServicePerson`: one roster entry from the corporate identity feed. -/
structure AriaServicePerson where
  userID : List Char
  lastName : List Char
  firstName : List Char
  manager : List Char
  displayName : List Char
  lob : List Char
  lobParent : List Char
  numberOfDirects : Int
  appMap : List Char
deriving DecidableEq

/-- The zero value of `AriaServicePerson` (what a failed Go map lookup
or an undecoded JSON struct yields). -/
def zeroPerson : AriaServicePerson :=
  { userID := [], lastName := [], firstName := [], manager := [],
    displayName := [], lob := [], lobParent := [], numberOfDirects := 0,
    appMap := [] }

/-- The configuration fields the reconciliation pipeline reads
(endpoints/credentials are absorbed into the call environment). -/
structure Config where
  idcsCreateNewUserPayload : List Char
  idcsAddUserToGroupPayload : List Char
  managerGroupNames : List Char
  userGroupNames : List Char
  stsUserAddPayload : List Char
  stsUpdateManagerPayload : List Char
  stsUserRoleCode : List Char
  stsManagerRoleCode : List Char
  oceAddUserPayload : List Char
deriving DecidableEq

/-- Outcome of an HTTP call whose body is read through a single gjson
id-extraction: `fail` models a transport error from `client.Do`
(`err != nil`); `resp status id` models a response with the given
status code whose body's extracted id string is `id` (`[]` when the
path is absent, matching gjson's empty string). -/
inductive LookupOut where
  | fail
  | resp (status : Nat) (id : List Char)
deriving DecidableEq

/-- Outcome of an HTTP call of which only the status code is read. -/
inductive SimpleOut where
  | fail
  | status (code : Nat)
deriving DecidableEq

/-- Outcome of an OCE share call: on a non-200 status the body's
`errorKey` field is read. -/
inductive OceOut where
  | fail
  | resp (status : Nat) (errorKey : List Char)
deriving DecidableEq

/-- The error values the per-person pipeline steps can return, one
constructor per `return`-an-error site in the source; the two `panic*`
constructors model Go runtime panics (an index out of range in
`convertManagerDnToEmail`, and the nil-response dereference in
`addUserToIDCS`'s create error branch), which crash the whole run
rather than being per-person isolated. -/
inductive Err where
  | idcsUserLookupFailed
  | idcsUserNotFoundOnDelete
  | idcsDeleteFailed
  | groupLookupFailed
  | groupNotFound
  | groupPatchFailed
  | vbcsAddLookupFailed
  | vbcsUpdateFailed
  | vbcsCreateFailed
  | vbcsDelLookupFailed (app : List Char)
  | vbcsUserNotFoundOnDelete (app : List Char)
  | vbcsDeleteFailed (app : List Char)
  | oceAddLookupFailed
  | oceUserNotFound
  | oceShareAddFailed
  | oceShareAddBodyError
  | oceDelLookupFailed
  | oceShareRemoveFailed
  | oceShareRemoveBodyError
  | oceSyncFailed
  | panicDnConversion
  | panicNilResponse
deriving DecidableEq

/-- Which errors model Go panics (these abort the whole run). -/
def Err.isPanic : Err → Bool
  | .panicDnConversion => true
  | .panicNilResponse => true
  | _ => false

/-- One outbound downstream call (mutation or lookup) issued by the
pipeline; the embedded functions return the list of effects they
issued, in order. -/
inductive Effect where
  | idcsUserLookup (key : List Char)
  | idcsUserCreate (key : List Char) (payload : List Char)
  | idcsGroupLookup (name : List Char)
  | idcsGroupPatch (gid : List Char) (payload : List Char)
  | idcsUserDelete (uid : List Char)
  | vbcsLookup (app : List Char) (key : List Char)
  | vbcsCreate (app : List Char) (payload : List Char)
  | vbcsUpdate (app : List Char) (pid : List Char) (payload : List Char)
  | vbcsDelete (app : List Char) (vid : List Char)
  | oceSyncCall
  | oceUserLookup (key : List Char)
  | oceShareAdd (payload : List Char)
  | oceShareRemove (payload : List Char)
deriving DecidableEq

/-- The environment resolving each outbound HTTP call to its outcome;
one field per call site, keyed by the call's request data. -/
structure SyncEnv where
  idcsUserLookup : List Char → LookupOut
  idcsUserCreate : List Char → LookupOut
  idcsGroupLookup : List Char → LookupOut
  idcsGroupPatch : List Char → List Char → SimpleOut
  idcsUserDelete : List Char → SimpleOut
  vbcsUserLookup : List Char → List Char → LookupOut
  vbcsUserCreate : List Char → List Char → SimpleOut
  vbcsUserUpdate : List Char → List Char → List Char → SimpleOut
  vbcsUserDelete : List Char → List Char → SimpleOut
  oceSync : SimpleOut
  oceUserLookup : List Char → LookupOut
  oceShareAdd : List Char → OceOut
  oceShareRemove : List Char → OceOut

/-- The function `convertManagerDnToEmail`: convert an LDAP DN of form
`cn=FIRST_NAME,l=amer,dc=oracle,dc=com` to `first.name@oracle.com`.
The source indexes `cnComponents[1]` unguarded; `none` models the Go
index-out-of-range panic on inputs whose first comma component
contains no `=`. -/
def convertManagerDnToEmail (managerDN : List Char) : Option (List Char) :=
  if managerDN.length < 1 then some []
  else
    let dnComponents := splitOnChar ',' managerDN
    if dnComponents.length < 1 then some []
    else
      let email := toLowerChars (replaceSeq ['_'] ['.'] (dnComponents.headD []))
      let cnComponents := splitOnChar '=' email
      match cnComponents[1]? with
      | none => none
      | some v => some (v ++ "@oracle.com".data)

/-- The IDCS create-user payload: the template with `%USERNAME%`,
`%FIRSTNAME%`, `%LASTNAME%` substituted, in the source's order. -/
def buildIdcsCreatePayload (cfg : Config) (p : AriaServicePerson) : List Char :=
  replaceSeq "%LASTNAME%".data p.lastName
    (replaceSeq "%FIRSTNAME%".data p.firstName
      (replaceSeq "%USERNAME%".data p.userID cfg.idcsCreateNewUserPayload))

/-- The function `addUserToIDCS`: look the user up by userName; when absent, create
them.  On a create response that is neither 201 nor 409 the source
prints the error but executes `return "", err` with the nil transport
error, so the caller sees success with an empty id; a transport error
on the create leads to a nil-response dereference (`res.StatusCode`)
in the source, modelled as `panicNilResponse`. -/
def addUserToIDCS (cfg : Config) (env : SyncEnv) (person : AriaServicePerson) :
    Except Err (List Char) × List Effect :=
  let key := trimSpace person.userID
  match env.idcsUserLookup key with
  | .fail => (.error .idcsUserLookupFailed, [.idcsUserLookup key])
  | .resp status id =>
    if status ≠ 200 then (.error .idcsUserLookupFailed, [.idcsUserLookup key])
    else if id.length < 1 then
      let payload := buildIdcsCreatePayload cfg person
      let trace := [Effect.idcsUserLookup key, Effect.idcsUserCreate person.userID payload]
      match env.idcsUserCreate payload with
      | .fail => (.error .panicNilResponse, trace)
      | .resp st2 bodyId =>
        if st2 ≠ 201 ∧ st2 ≠ 409 then (.ok [], trace)
        else (.ok bodyId, trace)
    else (.ok id, [.idcsUserLookup key])

/-- The loop body of `addUserToIDCSGroups` over the comma-split group
names: resolve each name to a group id, then patch the user into the
group; any failure (including a name resolving to no group) stops the
loop with an error. -/
def addGroupsLoop (cfg : Config) (env : SyncEnv) (userID : List Char) :
    List (List Char) → Except Err Unit × List Effect
  | [] => (.ok (), [])
  | g :: gs =>
    let name := trimSpace g
    match env.idcsGroupLookup name with
    | .fail => (.error .groupLookupFailed, [.idcsGroupLookup name])
    | .resp st gid =>
      if st ≠ 200 then (.error .groupLookupFailed, [.idcsGroupLookup name])
      else if gid.length < 1 then (.error .groupNotFound, [.idcsGroupLookup name])
      else
        let payload := replaceSeq "%USERID%".data userID cfg.idcsAddUserToGroupPayload
        match env.idcsGroupPatch gid payload with
        | .fail => (.error .groupPatchFailed, [.idcsGroupLookup name, .idcsGroupPatch gid payload])
        | .status st2 =>
          if st2 ≠ 200 then
            (.error .groupPatchFailed, [.idcsGroupLookup name, .idcsGroupPatch gid payload])
          else
            let (r, t) := addGroupsLoop cfg env userID gs
            (r, Effect.idcsGroupLookup name :: Effect.idcsGroupPatch gid payload :: t)

/-- The function `addUserToIDCSGroups`: people with no direct reports are added to
the user groups, people with direct reports to the manager groups. -/
def addUserToIDCSGroups (cfg : Config) (env : SyncEnv) (person : AriaServicePerson)
    (userID : List Char) : Except Err Unit × List Effect :=
  let groupList := if person.numberOfDirects > 0 then cfg.managerGroupNames else cfg.userGroupNames
  addGroupsLoop cfg env userID (splitOnChar ',' groupList)

/-- The VBCS payload before role substitution: template with
`%USERNAME%`, `%FIRSTNAME%`, `%LASTNAME%`, `%MANAGER%`, `%LOB%`,
`%LOBPARENT%` substituted in the source's order. -/
def buildVbcsBase (template : List Char) (p : AriaServicePerson) : List Char :=
  replaceSeq "%LOBPARENT%".data p.lobParent
    (replaceSeq "%LOB%".data p.lob
      (replaceSeq "%MANAGER%".data p.manager
        (replaceSeq "%LASTNAME%".data p.lastName
          (replaceSeq "%FIRSTNAME%".data p.firstName
            (replaceSeq "%USERNAME%".data p.userID template)))))

/-- The full VBCS payload: `%ROLE%` is substituted with the manager
role code when the person has direct reports, else the user role code. -/
def buildVbcsPayload (template userRole managerRole : List Char)
    (p : AriaServicePerson) : List Char :=
  if p.numberOfDirects > 0 then replaceSeq "%ROLE%".data managerRole (buildVbcsBase template p)
  else replaceSeq "%ROLE%".data userRole (buildVbcsBase template p)

/-- The function `addUserToVBCSApp`: look the user up by email; update when present,
create when absent.  Except for the transport-error cases, every
failure branch in the source executes `return err` with a nil `err`,
so only transport errors surface to the caller. -/
def addUserToVBCSApp (app : List Char)
    (addUserTemplate updateUserTemplate userRole managerRole : List Char)
    (env : SyncEnv) (person : AriaServicePerson) : Except Err Unit × List Effect :=
  let key := person.userID
  match env.vbcsUserLookup app key with
  | .fail => (.error .vbcsAddLookupFailed, [.vbcsLookup app key])
  | .resp st pid =>
    if st ≠ 200 then (.ok (), [.vbcsLookup app key])
    else if pid.length > 0 then
      let payload := buildVbcsPayload updateUserTemplate userRole managerRole person
      let trace := [Effect.vbcsLookup app key, Effect.vbcsUpdate app pid payload]
      match env.vbcsUserUpdate app pid payload with
      | .fail => (.error .vbcsUpdateFailed, trace)
      | .status _ => (.ok (), trace)
    else
      let payload := buildVbcsPayload addUserTemplate userRole managerRole person
      let trace := [Effect.vbcsLookup app key, Effect.vbcsCreate app payload]
      match env.vbcsUserCreate app payload with
      | .fail => (.error .vbcsCreateFailed, trace)
      | .status _ => (.ok (), trace)

/-- The function `addIDCSVBCSUser`: normalize the manager DN, upsert into IDCS, add
the user to IDCS groups when the id returned by `addUserToIDCS` is
non-empty, then add to the STS app when tagged (the ECAL add block is
commented out in the source). -/
def addIDCSVBCSUser (cfg : Config) (env : SyncEnv) (person : AriaServicePerson) :
    Except Err Unit × List Effect :=
  match convertManagerDnToEmail person.manager with
  | none => (.error .panicDnConversion, [])
  | some mgr =>
    let p := { person with manager := mgr }
    match addUserToIDCS cfg env p with
    | (.error e, t1) => (.error e, t1)
    | (.ok addedUserID, t1) =>
      match (if addedUserID.length > 0 then addUserToIDCSGroups cfg env p addedUserID
             else (.ok (), [])) with
      | (.error e, t2) => (.error e, t1 ++ t2)
      | (.ok _, t2) =>
        if containsSeq "STS".data p.appMap then
          match addUserToVBCSApp "STS".data cfg.stsUserAddPayload
              cfg.stsUpdateManagerPayload cfg.stsUserRoleCode cfg.stsManagerRoleCode env p with
          | (r3, t3) => (r3, t1 ++ t2 ++ t3)
        else (.ok (), t1 ++ t2)

/-- The function `deleteUserFromVBCSApp`: look the user up by email; an absent
record (`items.0.id` empty) is returned as an error, then the record
is deleted (200 or 204 accepted). -/
def deleteUserFromVBCSApp (app : List Char) (env : SyncEnv)
    (person : AriaServicePerson) : Except Err Unit × List Effect :=
  let key := person.userID
  match env.vbcsUserLookup app key with
  | .fail => (.error (.vbcsDelLookupFailed app), [.vbcsLookup app key])
  | .resp st vid =>
    if st ≠ 200 then (.error (.vbcsDelLookupFailed app), [.vbcsLookup app key])
    else if vid.length < 1 then
      (.error (.vbcsUserNotFoundOnDelete app), [.vbcsLookup app key])
    else
      let trace := [Effect.vbcsLookup app key, Effect.vbcsDelete app vid]
      match env.vbcsUserDelete app vid with
      | .fail => (.error (.vbcsDeleteFailed app), trace)
      | .status st2 =>
        if st2 ≠ 200 ∧ st2 ≠ 204 then (.error (.vbcsDeleteFailed app), trace)
        else (.ok (), trace)

/-- The function `deleteIDCSVBCSUser`: resolve the IDCS user id by userName (an
absent record is an error), force-delete it, then delete from the ECAL
and STS apps. -/
def deleteIDCSVBCSUser (cfg : Config) (env : SyncEnv) (person : AriaServicePerson) :
    Except Err Unit × List Effect :=
  let key := trimSpace person.userID
  match env.idcsUserLookup key with
  | .fail => (.error .idcsUserLookupFailed, [.idcsUserLookup key])
  | .resp st id =>
    if st ≠ 200 then (.error .idcsUserLookupFailed, [.idcsUserLookup key])
    else if id.length < 1 then (.error .idcsUserNotFoundOnDelete, [.idcsUserLookup key])
    else
      let t0 := [Effect.idcsUserLookup key, Effect.idcsUserDelete id]
      match env.idcsUserDelete id with
      | .fail => (.error .idcsDeleteFailed, t0)
      | .status st2 =>
        if st2 ≠ 200 ∧ st2 ≠ 204 then (.error .idcsDeleteFailed, t0)
        else
          match deleteUserFromVBCSApp "ECAL".data env person with
          | (.error e, t1) => (.error e, t0 ++ t1)
          | (.ok _, t1) =>
            match deleteUserFromVBCSApp "STS".data env person with
            | (r2, t2) => (r2, t0 ++ t1 ++ t2)

/-- The function `addUserToOCE`: resolve the OCE user id by email (a non-200 lookup
status executes `return err` with a nil `err`, surfacing as success; an
empty id is a real error), then grant the downloader share; a non-200
share response whose `errorKey` starts with `!csFolderAlreadyShared`
is squelched. -/
def addUserToOCE (cfg : Config) (env : SyncEnv) (person : AriaServicePerson) :
    Except Err Unit × List Effect :=
  let key := person.userID
  match env.oceUserLookup key with
  | .fail => (.error .oceAddLookupFailed, [.oceUserLookup key])
  | .resp st pid =>
    if st ≠ 200 then (.ok (), [.oceUserLookup key])
    else if pid.length < 1 then (.error .oceUserNotFound, [.oceUserLookup key])
    else
      let payload := replaceSeq "%USERNAME%".data pid cfg.oceAddUserPayload
      let trace := [Effect.oceUserLookup key, Effect.oceShareAdd payload]
      match env.oceShareAdd payload with
      | .fail => (.error .oceShareAddFailed, trace)
      | .resp st2 errorKey =>
        if st2 ≠ 200 then
          if startsWithSeq "!csFolderAlreadyShared".data errorKey then (.ok (), trace)
          else (.error .oceShareAddBodyError, trace)
        else (.ok (), trace)

/-- The function `deleteUserFromOCE`: resolve the OCE user id by email (a non-200
lookup status executes `return err` with a nil `err`, surfacing as
success; no empty-id check), then revoke the share; a non-200 revoke
response whose `errorKey` starts with `!csUserHasNotBeenShared` is
squelched. -/
def deleteUserFromOCE (cfg : Config) (env : SyncEnv) (person : AriaServicePerson) :
    Except Err Unit × List Effect :=
  let key := person.userID
  match env.oceUserLookup key with
  | .fail => (.error .oceDelLookupFailed, [.oceUserLookup key])
  | .resp st pid =>
    if st ≠ 200 then (.ok (), [.oceUserLookup key])
    else
      let payload := replaceSeq "%USERNAME%".data pid cfg.oceAddUserPayload
      let trace := [Effect.oceUserLookup key, Effect.oceShareRemove payload]
      match env.oceShareRemove payload with
      | .fail => (.error .oceShareRemoveFailed, trace)
      | .resp st2 errorKey =>
        if st2 ≠ 200 then
          if startsWithSeq "!csUserHasNotBeenShared".data errorKey then (.ok (), trace)
          else (.error .oceShareRemoveBodyError, trace)
        else (.ok (), trace)

/-- The function `addOCEUser` forwards to `addUserToOCE`. -/
def addOCEUser (cfg : Config) (env : SyncEnv) (person : AriaServicePerson) :
    Except Err Unit × List Effect :=
  addUserToOCE cfg env person

/-- The function `deleteOCEUser` forwards to `deleteUserFromOCE`. -/
def deleteOCEUser (cfg : Config) (env : SyncEnv) (person : AriaServicePerson) :
    Except Err Unit × List Effect :=
  deleteUserFromOCE cfg env person

/-- The function `syncOCEProfileData`: the one-time OCE profile sync.  A non-200
response prints the error but executes `return err` with the nil
transport error, so only a transport error surfaces to `main`. -/
def syncOCEProfileData (env : SyncEnv) : Except Err Unit × List Effect :=
  match env.oceSync with
  | .fail => (.error .oceSyncFailed, [.oceSyncCall])
  | .status _ => (.ok (), [.oceSyncCall])

/-- The two synchronizing run modes of `main` (clean mode is modelled
by `cleanLoop`; list mode issues no downstream calls). -/
inductive SyncMode where
  | add
  | delete
deriving DecidableEq

/-- The per-person step of `main`'s first loop. -/
def phase1Step (mode : SyncMode) (cfg : Config) (env : SyncEnv)
    (p : AriaServicePerson) : Except Err Unit × List Effect :=
  match mode with
  | .add => addIDCSVBCSUser cfg env p
  | .delete => deleteIDCSVBCSUser cfg env p

/-- The first loop of `main` (IDCS/VBCS): count the persons whose step
returned no error, accumulate the trace; a panic-class error crashes
the run (third component true), stopping the loop. -/
def phase1Loop (mode : SyncMode) (cfg : Config) (env : SyncEnv) :
    List AriaServicePerson → Nat × List Effect × Bool
  | [] => (0, [], false)
  | p :: ps =>
    match phase1Step mode cfg env p with
    | (.error e, t) =>
      if e.isPanic then (0, t, true)
      else
        match phase1Loop mode cfg env ps with
        | (n, t2, c) => (n, t ++ t2, c)
    | (.ok _, t) =>
      match phase1Loop mode cfg env ps with
      | (n, t2, c) => (n + 1, t ++ t2, c)

/-- The per-person step of `main`'s second loop (OCE). -/
def phase2Step (mode : SyncMode) (cfg : Config) (env : SyncEnv)
    (p : AriaServicePerson) : Except Err Unit × List Effect :=
  match mode with
  | .add => addOCEUser cfg env p
  | .delete => deleteOCEUser cfg env p

/-- The second loop of `main` (OCE): only persons whose app map contains
`ECAL` are processed; the others are skipped and not counted. -/
def phase2Loop (mode : SyncMode) (cfg : Config) (env : SyncEnv) :
    List AriaServicePerson → Nat × List Effect
  | [] => (0, [])
  | p :: ps =>
    if containsSeq "ECAL".data p.appMap then
      match phase2Step mode cfg env p, phase2Loop mode cfg env ps with
      | (.error _, t), (n, t2) => (n, t ++ t2)
      | (.ok _, t), (n, t2) => (n + 1, t ++ t2)
    else phase2Loop mode cfg env ps

/-- The observable outcome of an add/delete run. -/
inductive RunOutcome where
  | crashed (trace : List Effect)
  | exited (code : Nat) (phase1Count : Nat) (trace : List Effect)
  | completed (phase1Count : Nat) (phase2Count : Nat) (trace : List Effect)
deriving DecidableEq

/-- The function `main` in add/delete mode: run the IDCS/VBCS loop over the whole
roster, then the one-time OCE profile sync — exiting with code 1 when
it returns an error — then the OCE loop. -/
def runAddDelete (mode : SyncMode) (cfg : Config) (env : SyncEnv)
    (people : List AriaServicePerson) : RunOutcome :=
  let (n1, t1, crashed) := phase1Loop mode cfg env people
  if crashed then .crashed t1
  else
    match syncOCEProfileData env with
    | (.error _, ts) => .exited 1 n1 (t1 ++ ts)
    | (.ok _, ts) =>
      let (n2, t2) := phase2Loop mode cfg env people
      .completed n1 n2 (t1 ++ ts ++ t2)

/-- Outcome of the roster fetch HTTP call. -/
inductive AriaOut where
  | fail
  | resp (status : Nat) (body : List Char)

/-- Environment for `getPeopleFromAria`: the HTTP outcome, and the two
observable results of `json.NewDecoder(res.Body).Decode(&peopleList)`
on the body, modelled independently to match Go's `encoding/json`
semantics — `decodeErr body` is whether `Decode` returned an error,
and `decodeItems body` is the content of `peopleList.Items` after the
call.  On a JSON syntax error nothing is populated (the struct keeps
its zero value, so `decodeItems` is `[]`); on an
`UnmarshalTypeError`, Go keeps decoding and may leave `Items`
partially populated while still returning an error. -/
structure AriaEnv where
  ariaResp : AriaOut
  decodeErr : List Char → Bool
  decodeItems : List Char → List AriaServicePerson

/-- The function `getPeopleFromAria`: a transport error or non-200 status panics
(`.error ()`); otherwise `Decode`'s error is discarded (the source
ignores its return value) and the run proceeds with whatever entries
`Decode` populated into the struct. -/
def getPeopleFromAria (env : AriaEnv) : Except Unit (List AriaServicePerson) :=
  match env.ariaResp with
  | .fail => .error ()
  | .resp st body =>
    if st ≠ 200 then .error ()
    else .ok (env.decodeItems body)

/-- Is a step result a returned success? -/
def isOkE : Except Err Unit → Bool
  | .ok _ => true
  | .error _ => false

/-- The synthesized minimal person record of clean mode: the Go zero
value with `UserID` and `DisplayName` set to the listed email. -/
def synthPerson (email : List Char) : AriaServicePerson :=
  { zeroPerson with userID := email, displayName := email }

/-- The clean-mode confirmation test: the console line with all
newline characters removed, upper-cased, compared to `"Y"`. -/
def confirmText (text : List Char) : Bool :=
  toUpperChars (replaceSeq ['\n'] [] text) = ['Y']

/-- The clean loop of `main` over the ECAL listing's emails: an email absent
from the roster map and not containing `cto-test` is offered for
removal; a console line confirming with `Y` runs the IDCS/VBCS and OCE
delete paths on the synthesized person, and the removal is counted
only when both returned no error.  Returns (removal count, offered
emails, trace); `console` is the stream of console lines, consumed one
line per offer. -/
def cleanLoop (cfg : Config) (env : SyncEnv) (people : List AriaServicePerson) :
    List (List Char) → List (List Char) → Nat × List (List Char) × List Effect
  | [], _ => (0, [], [])
  | email :: rest, console =>
    let userExistsInAria := people.any (fun p => p.userID == email)
    if !userExistsInAria && !containsSeq "cto-test".data email then
      let text := console.headD []
      let person := synthPerson email
      if confirmText text then
        match deleteIDCSVBCSUser cfg env person, deleteOCEUser cfg env person,
            cleanLoop cfg env people rest console.tail with
        | (r1, t1), (r2, t2), (n, offs, t) =>
          ((if isOkE r1 && isOkE r2 then n + 1 else n), email :: offs, t1 ++ t2 ++ t)
      else
        match cleanLoop cfg env people rest console.tail with
        | (n, offs, t) => (n, email :: offs, t)
    else
      cleanLoop cfg env people rest console

/-- Modelled from the spec: the manager-reference normalization as the
spec words it — split on commas, take the first component, lower-case
it and replace underscores with dots, split on `=`, take the value
part, append the organization's email domain (hard-coded `@oracle.com`
in the source); the empty string maps to the empty string. -/
def managerRefToEmailSpec (s : List Char) : List Char :=
  if s = [] then []
  else
    ((splitOnChar '=' (toLowerChars (replaceSeq ['_'] ['.'] ((splitOnChar ',' s).headD [])))).getD 1 [])
      ++ "@oracle.com".data

def testCfg : Config :=
  { idcsCreateNewUserPayload := "u=%USERNAME%;f=%FIRSTNAME%;l=%LASTNAME%".data,
    idcsAddUserToGroupPayload := "m=%USERID%".data,
    managerGroupNames := "MgrA,MgrB".data,
    userGroupNames := "UsrA,UsrB".data,
    stsUserAddPayload := "a=%USERNAME%;r=%ROLE%".data,
    stsUpdateManagerPayload := "p=%USERNAME%;m=%MANAGER%;r=%ROLE%".data,
    stsUserRoleCode := "1".data,
    stsManagerRoleCode := "2".data,
    oceAddUserPayload := "o=%USERNAME%".data }

def okEnv : SyncEnv :=
  { idcsUserLookup := fun _ => .resp 200 [],
    idcsUserCreate := fun _ => .resp 201 "newid".data,
    idcsGroupLookup := fun n => .resp 200 ('g' :: n),
    idcsGroupPatch := fun _ _ => .status 200,
    idcsUserDelete := fun _ => .status 204,
    vbcsUserLookup := fun _ _ => .resp 200 [],
    vbcsUserCreate := fun _ _ => .status 201,
    vbcsUserUpdate := fun _ _ _ => .status 200,
    vbcsUserDelete := fun _ _ => .status 200,
    oceSync := .status 200,
    oceUserLookup := fun _ => .resp 200 "oceid".data,
    oceShareAdd := fun _ => .resp 200 [],
    oceShareRemove := fun _ => .resp 200 [] }

def jane : AriaServicePerson :=
  { userID := "jane@x.com".data, lastName := "Doe".data, firstName := "Jane".data,
    manager := "cn=Big_Boss,l=amer,dc=x,dc=com".data, displayName := "Jane Doe".data,
    lob := "CTO".data, lobParent := "EMEA".data, numberOfDirects := 0,
    appMap := "STS,ECAL".data }

def existEnv : SyncEnv := { okEnv with idcsUserLookup := fun _ => .resp 200 "abc123".data }

def sync500Env : SyncEnv := { okEnv with oceSync := .status 500 }

def syncFailEnv : SyncEnv := { okEnv with oceSync := .fail }

def delAbsentEnv : SyncEnv :=
  { okEnv with oceShareRemove := fun _ => .resp 404 "!csUserHasNotBeenSharedZZ".data }

def Effect.isRemoval : Effect → Bool
  | .idcsUserDelete _ => true
  | .vbcsDelete _ _ => true
  | .oceShareRemove _ => true
  | _ => false

def RunOutcome.trace : RunOutcome → List Effect
  | .crashed t => t
  | .exited _ _ t => t
  | .completed _ _ t => t

def RunOutcome.isExit : RunOutcome → Bool
  | .exited _ _ _ => true
  | _ => false

def RunOutcome.p1Count : RunOutcome → Nat
  | .crashed _ => 0
  | .exited _ n _ => n
  | .completed n _ _ => n

def oceGrantRevokeCount (tr : List Effect) : Nat :=
  (tr.filter fun e => match e with
    | .oceShareAdd _ => true
    | .oceShareRemove _ => true
    | _ => false).length

def stepPanicked (r : Except Err Unit) : Bool :=
  match r with
  | .error e => e.isPanic
  | .ok _ => false

def p1 : AriaServicePerson :=
  { userID := "p1@x.com".data, lastName := [], firstName := [], manager := [],
    displayName := "P One".data, lob := [], lobParent := [], numberOfDirects := 0,
    appMap := "STS".data }

def p2 : AriaServicePerson :=
  { userID := "p2@x.com".data, lastName := [], firstName := [], manager := [],
    displayName := "P Two".data, lob := [], lobParent := [], numberOfDirects := 0,
    appMap := "STS".data }

def p3 : AriaServicePerson :=
  { userID := "p3@x.com".data, lastName := [], firstName := [], manager := [],
    displayName := "P Three".data, lob := [], lobParent := [], numberOfDirects := 3,
    appMap := "STS".data }

def c5env : SyncEnv :=
  { okEnv with vbcsUserLookup := fun _ k => if k = "p2@x.com".data then .fail else .resp 200 [] }

def perA : AriaServicePerson :=
  { userID := "a@x.com".data, lastName := [], firstName := [], manager := [],
    displayName := "A".data, lob := [], lobParent := [], numberOfDirects := 0,
    appMap := "STS".data }

def perB : AriaServicePerson :=
  { userID := "b@x.com".data, lastName := [], firstName := [], manager := [],
    displayName := "B".data, lob := [], lobParent := [], numberOfDirects := 1,
    appMap := "ECAL".data }

def delOkEnv : SyncEnv :=
  { okEnv with
    idcsUserLookup := fun _ => .resp 200 "uid9".data,
    vbcsUserLookup := fun _ _ => .resp 200 "vid9".data }

def delFailEnv : SyncEnv :=
  { delOkEnv with oceShareRemove := fun _ => .resp 500 "boom".data }

/-- A roster body that is not valid JSON at all: `Decode` returns a
syntax error having populated nothing, so the struct keeps its zero
value. -/
def syntaxErrAriaEnv : AriaEnv :=
  { ariaResp := .resp 200 "this body is not a person list".data,
    decodeErr := fun _ => true,
    decodeItems := fun _ => [] }

/-- A roster body that is syntactically valid JSON but not a valid
person-list document: `num_directs` holds a string, so Go's `Decode`
returns an `UnmarshalTypeError` — yet it keeps decoding and populates
`Items` with the entry's other fields before erroring. -/
def partialDecodeBody : List Char :=
  "\x7b\"items\":[\x7b\"id\":\"a@x.com\",\"num_directs\":\"oops\"\x7d]\x7d".data

/-- The person Go's decoder leaves behind for `partialDecodeBody`: the
`id` field populated, `num_directs` left at the zero value. -/
def partialPerson : AriaServicePerson :=
  { zeroPerson with userID := "a@x.com".data }

/-- The decoder environment Go exhibits on `partialDecodeBody`: the
`Decode` call errors, but `Items` ends up non-empty. -/
def partialAriaEnv : AriaEnv :=
  { ariaResp := .resp 200 partialDecodeBody,
    decodeErr := fun _ => true,
    decodeItems := fun b => if b = partialDecodeBody then [partialPerson] else [] }

theorem splitOnChar_ne_nil (c : Char) (l : List Char) : splitOnChar c l ≠ [] := by
  induction l with
  | nil => simp [splitOnChar]
  | cons x xs ih =>
    simp only [splitOnChar]
    split
    · simp
    · split <;> simp

theorem length_splitOnChar (c : Char) (l : List Char) :
    (splitOnChar c l).length = l.count c + 1 := by
  induction l with
  | nil => simp [splitOnChar]
  | cons x xs ih =>
    simp only [splitOnChar]
    cases h : splitOnChar c xs with
    | nil => exact absurd h (splitOnChar_ne_nil c xs)
    | cons hd tl =>
      rw [h] at ih
      simp only [List.length_cons] at ih
      by_cases hx : x = c
      · simp [if_pos hx, List.count_cons, hx]
        omega
      · simp [if_neg hx, List.count_cons, hx]
        omega

theorem char_toNat_ofNat_lt (n : Nat) (h : n < 55296) : (Char.ofNat n).toNat = n := by
  have hv : n.isValidChar := Or.inl h
  rw [Char.ofNat, dif_pos hv]
  simp [Char.ofNatAux, Char.toNat, UInt32.toNat, BitVec.toNat_ofNatLt]

theorem toLower_eq_eqChar_iff (c : Char) : (Char.toLower c = '=') ↔ c = '=' := by
  by_cases hr : 65 ≤ c.toNat ∧ c.toNat ≤ 90
  · rw [show Char.toLower c = Char.ofNat (c.toNat + 32) by simp [Char.toLower, hr]]
    constructor
    · intro he
      have h2 := congrArg Char.toNat he
      rw [char_toNat_ofNat_lt (c.toNat + 32) (by omega)] at h2
      have h3 : ('=' : Char).toNat = 61 := by decide
      omega
    · intro he
      subst he
      exact absurd hr (by decide)
  · rw [show Char.toLower c = c by simp [Char.toLower, hr]]

theorem mem_eqChar_toLowerChars (l : List Char) : '=' ∈ toLowerChars l ↔ '=' ∈ l := by
  simp only [toLowerChars, List.mem_map]
  constructor
  · rintro ⟨c, hc, he⟩
    rw [toLower_eq_eqChar_iff] at he
    subst he
    exact hc
  · intro h
    exact ⟨'=', h, by decide⟩

theorem replaceSeqGo_underscore (fuel : Nat) (l : List Char) (h : l.length ≤ fuel) :
    replaceSeqGo ['_'] ['.'] fuel l = l.map (fun c => if c = '_' then '.' else c) := by
  induction fuel generalizing l with
  | zero =>
    cases l with
    | nil => simp [replaceSeqGo]
    | cons x xs => simp at h
  | succ fuel ih =>
    cases l with
    | nil => simp [replaceSeqGo]
    | cons x xs =>
      have hlen : xs.length ≤ fuel := by
        simp only [List.length_cons] at h
        omega
      by_cases hx : x = '_'
      · simp [replaceSeqGo, startsWithSeq, hx, ih xs hlen]
      · have hx' : ¬('_' = x) := fun hh => hx hh.symm
        simp [replaceSeqGo, startsWithSeq, hx, hx', ih xs hlen]

theorem mem_eqChar_replaceUnderscore (l : List Char) :
    '=' ∈ replaceSeq ['_'] ['.'] l ↔ '=' ∈ l := by
  rw [replaceSeq, replaceSeqGo_underscore l.length l (Nat.le_refl _)]
  simp only [List.mem_map]
  constructor
  · rintro ⟨c, hc, he⟩
    by_cases hu : c = '_'
    · simp [hu] at he
    · simp [hu] at he
      subst he
      exact hc
  · intro h
    exact ⟨'=', h, by decide⟩

/-- C8: the embedded `convertManagerDnToEmail` returns normally (a `some`
result) exactly for the inputs that are empty or whose first
comma-delimited component contains at least one `=`; for every other
non-empty input the unguarded access to the second `=`-split component
is out of bounds and the error branch (`none`, modelling the Go
index-out-of-range panic) is taken — not an empty-string result. -/
theorem convertManagerDn_returns_iff (s : List Char) :
    (convertManagerDnToEmail s).isSome = true ↔
      (s = [] ∨ '=' ∈ (splitOnChar ',' s).headD []) := by
  by_cases hs : s = []
  · subst hs
    simp [convertManagerDnToEmail]
  · have hlen : ¬(s.length < 1) := by
      cases s with
      | nil => exact absurd rfl hs
      | cons a l => simp
    have hne := splitOnChar_ne_nil ',' s
    have hlen2 : ¬((splitOnChar ',' s).length < 1) := by
      cases h : splitOnChar ',' s with
      | nil => exact absurd h hne
      | cons a l => simp
    simp only [convertManagerDnToEmail, if_neg hlen, if_neg hlen2]
    have hmem : '=' ∈ toLowerChars (replaceSeq ['_'] ['.'] ((splitOnChar ',' s).headD []))
        ↔ '=' ∈ (splitOnChar ',' s).headD [] := by
      rw [mem_eqChar_toLowerChars, mem_eqChar_replaceUnderscore]
    cases h12 : (splitOnChar '=' (toLowerChars (replaceSeq ['_'] ['.'] ((splitOnChar ',' s).headD []))))[1]? with
    | none =>
      rw [List.getElem?_eq_none_iff, length_splitOnChar] at h12
      have hcnt : (toLowerChars (replaceSeq ['_'] ['.'] ((splitOnChar ',' s).headD []))).count '=' = 0 := by
        omega
      rw [List.count_eq_zero] at hcnt
      simp only [List.headD_eq_head?_getD] at hmem hcnt
      simp [hs]
      exact fun hmm => hcnt (hmem.mpr hmm)
    | some v =>
      have h1 : 1 < (splitOnChar '=' (toLowerChars (replaceSeq ['_'] ['.'] ((splitOnChar ',' s).headD [])))).length := by
        by_contra hle
        rw [List.getElem?_eq_none (by omega)] at h12
        cases h12
      rw [length_splitOnChar] at h1
      have hcnt : 0 < (toLowerChars (replaceSeq ['_'] ['.'] ((splitOnChar ',' s).headD []))).count '=' := by
        omega
      rw [List.count_pos_iff] at hcnt
      simp only [List.headD_eq_head?_getD] at hmem hcnt
      simp [hs]
      exact hmem.mp hcnt

/-- C3 (amended): on every input that is empty or whose first
comma-delimited component contains an `=`, `convertManagerDnToEmail` is
exactly the spec's pure transform `managerRefToEmailSpec` — split on
commas, take the first component, lower-case it and replace
underscores with dots, split on `=`, take the value part, and append
the organization's email domain, which the source hard-codes as
`@oracle.com` (not the spec's `@example.com`); empty maps to empty. -/
theorem convertManagerDn_refines_spec (s : List Char)
    (h : s = [] ∨ '=' ∈ (splitOnChar ',' s).headD []) :
    convertManagerDnToEmail s = some (managerRefToEmailSpec s) := by
  by_cases hs : s = []
  · subst hs
    rfl
  · have hm : '=' ∈ (splitOnChar ',' s).headD [] := h.resolve_left hs
    have hlen : ¬(s.length < 1) := by
      cases s with
      | nil => exact absurd rfl hs
      | cons a l => simp
    have hne := splitOnChar_ne_nil ',' s
    have hlen2 : ¬((splitOnChar ',' s).length < 1) := by
      cases hq : splitOnChar ',' s with
      | nil => exact absurd hq hne
      | cons a l => simp
    have hmem : '=' ∈ toLowerChars (replaceSeq ['_'] ['.'] ((splitOnChar ',' s).headD [])) := by
      rw [mem_eqChar_toLowerChars, mem_eqChar_replaceUnderscore]
      exact hm
    have hcnt : 0 < (toLowerChars (replaceSeq ['_'] ['.'] ((splitOnChar ',' s).headD []))).count '=' :=
      List.count_pos_iff.mpr hmem
    have hgt : 1 < (splitOnChar '=' (toLowerChars (replaceSeq ['_'] ['.'] ((splitOnChar ',' s).headD [])))).length := by
      rw [length_splitOnChar]
      omega
    simp only [convertManagerDnToEmail, managerRefToEmailSpec, if_neg hlen, if_neg hlen2, if_neg hs]
    cases h12 : (splitOnChar '=' (toLowerChars (replaceSeq ['_'] ['.'] ((splitOnChar ',' s).headD []))))[1]? with
    | none =>
      rw [List.getElem?_eq_none_iff] at h12
      omega
    | some v =>
      rw [List.getD_eq_getElem?_getD, h12]
      rfl

/-- C3 counterexample: the claimed example value is wrong — the code
maps `cn=Jane_Doe,l=amer,dc=example,dc=com` to `jane.doe@oracle.com`
(the hard-coded domain), not to the claimed `jane.doe@example.com`. -/
theorem convertManagerDn_domain_counterexample :
    convertManagerDnToEmail "cn=Jane_Doe,l=amer,dc=example,dc=com".data
      ≠ some "jane.doe@example.com".data ∧
    convertManagerDnToEmail "cn=Jane_Doe,l=amer,dc=example,dc=com".data
      = some "jane.doe@oracle.com".data := by
  constructor
  · decide
  · rfl

/-- Witness for C3: the amended theorem evaluated at the example DN and
at the empty string. -/
theorem convertManagerDn_refines_spec_witness :
    convertManagerDnToEmail "cn=Jane_Doe,l=amer,dc=example,dc=com".data
      = some (managerRefToEmailSpec "cn=Jane_Doe,l=amer,dc=example,dc=com".data)
    ∧ managerRefToEmailSpec "cn=Jane_Doe,l=amer,dc=example,dc=com".data
      = "jane.doe@oracle.com".data
    ∧ convertManagerDnToEmail [] = some (managerRefToEmailSpec []) :=
  ⟨convertManagerDn_refines_spec _ (Or.inr (by decide)),
   by decide,
   convertManagerDn_refines_spec [] (Or.inl rfl)⟩

/-- C1 (refuting evaluation): for a person whose identity-provider
record already exists (the lookup returns status 200 with the
non-empty id `abc123`), `addUserToIDCS` returns that existing id, so
`addIDCSVBCSUser` still runs the group-assignment step: the trace
contains a group lookup and a group-membership patch, and no create
was issued.  This contradicts the claim (and the source's own
comments) that group assignment happens only for newly created
records. -/
theorem existing_user_still_gets_group_calls :
    (existEnv.idcsUserLookup (trimSpace jane.userID) = LookupOut.resp 200 "abc123".data)
    ∧ (addUserToIDCS testCfg existEnv jane).1 = .ok "abc123".data
    ∧ Effect.idcsGroupLookup "UsrA".data ∈ (addIDCSVBCSUser testCfg existEnv jane).2
    ∧ ((addIDCSVBCSUser testCfg existEnv jane).2.any fun e => match e with
        | .idcsGroupPatch _ _ => true
        | _ => false) = true
    ∧ ((addIDCSVBCSUser testCfg existEnv jane).2.any fun e => match e with
        | .idcsUserCreate _ _ => true
        | _ => false) = false := by
  refine ⟨rfl, rfl, by decide, by decide, by decide⟩

/-- C2 counterexample: deleting a person whose identity-provider record
is absent (lookup succeeds with status 200 but finds no id) does NOT
complete successfully — `deleteIDCSVBCSUser` returns the
user-not-found error, refuting the claim that every adapter tolerates
a "not found" delete as success. -/
theorem delete_absent_idcs_record_errors :
    (okEnv.idcsUserLookup (trimSpace jane.userID) = LookupOut.resp 200 [])
    ∧ (deleteIDCSVBCSUser testCfg okEnv jane).1 = .error .idcsUserNotFoundOnDelete :=
  ⟨rfl, rfl⟩

/-- C2 (amended): only the content-share adapter's delete path is
idempotent — a revoke response whose `errorKey` starts with
`!csUserHasNotBeenShared` is squelched to success — while the
identity-provider and business-app delete paths return an error when
the downstream record is absent. -/
theorem delete_idempotency_per_adapter (cfg : Config) (env : SyncEnv)
    (p : AriaServicePerson) (app pid : List Char) (st : Nat) (ek : List Char) :
    (env.idcsUserLookup (trimSpace p.userID) = .resp 200 [] →
       (deleteIDCSVBCSUser cfg env p).1 = .error .idcsUserNotFoundOnDelete)
    ∧ (env.vbcsUserLookup app p.userID = .resp 200 [] →
       (deleteUserFromVBCSApp app env p).1 = .error (.vbcsUserNotFoundOnDelete app))
    ∧ (env.oceUserLookup p.userID = .resp 200 pid →
       env.oceShareRemove (replaceSeq "%USERNAME%".data pid cfg.oceAddUserPayload) = .resp st ek →
       startsWithSeq "!csUserHasNotBeenShared".data ek = true →
       (deleteUserFromOCE cfg env p).1 = .ok ()) := by
  refine ⟨?_, ?_, ?_⟩
  · intro h
    simp [deleteIDCSVBCSUser, h]
  · intro h
    simp [deleteUserFromVBCSApp, h]
  · intro h1 h2 h3
    by_cases hst : st = 200
    · subst hst
      simp [deleteUserFromOCE, h1, h2]
    · simp [deleteUserFromOCE, h1, h2, hst, h3]

/-- Witness for C2: the amended theorem applied at a concrete
environment in which every record is absent / already unshared. -/
theorem delete_idempotency_per_adapter_witness :
    (deleteIDCSVBCSUser testCfg delAbsentEnv jane).1 = .error .idcsUserNotFoundOnDelete
    ∧ (deleteUserFromVBCSApp "ECAL".data delAbsentEnv jane).1
        = .error (.vbcsUserNotFoundOnDelete "ECAL".data)
    ∧ (deleteUserFromOCE testCfg delAbsentEnv jane).1 = .ok () :=
  ⟨(delete_idempotency_per_adapter testCfg delAbsentEnv jane "ECAL".data "oceid".data
      404 "!csUserHasNotBeenSharedZZ".data).1 (by decide),
   (delete_idempotency_per_adapter testCfg delAbsentEnv jane "ECAL".data "oceid".data
      404 "!csUserHasNotBeenSharedZZ".data).2.1 (by decide),
   (delete_idempotency_per_adapter testCfg delAbsentEnv jane "ECAL".data "oceid".data
      404 "!csUserHasNotBeenSharedZZ".data).2.2 (by decide) (by decide) (by decide)⟩

/-- C4 (refuting evaluation): when the one-time OCE profile sync call
responds with HTTP 500 (no transport error), `syncOCEProfileData`
executes `return err` with the stale nil error, so the run does NOT
exit and one per-person content-share grant is still attempted —
contrary to the claim that a failed sync skips the whole phase with a
non-zero exit.  Only for a transport-level sync failure does the code
behave as claimed: exit code 1, zero grant/revoke calls, and the
first-phase tally (1 person) preserved. -/
theorem oceSync_status_failure_not_fatal :
    (sync500Env.oceSync = SimpleOut.status 500)
    ∧ (syncOCEProfileData sync500Env).1 = .ok ()
    ∧ oceGrantRevokeCount (runAddDelete .add testCfg sync500Env [jane]).trace = 1
    ∧ (runAddDelete .add testCfg sync500Env [jane]).isExit = false
    ∧ (syncFailEnv.oceSync = SimpleOut.fail)
    ∧ (syncOCEProfileData syncFailEnv).1 = .error .oceSyncFailed
    ∧ oceGrantRevokeCount (runAddDelete .add testCfg syncFailEnv [jane]).trace = 0
    ∧ (runAddDelete .add testCfg syncFailEnv [jane]).isExit = true
    ∧ (runAddDelete .add testCfg syncFailEnv [jane]).p1Count = 1 := by
  refine ⟨rfl, rfl, by decide, by decide, rfl, rfl, by decide, by decide, by decide⟩

theorem addUserToIDCS_no_removal (cfg : Config) (env : SyncEnv) (person : AriaServicePerson) :
    ∀ e ∈ (addUserToIDCS cfg env person).2, e.isRemoval = false := by
  intro e he
  simp only [addUserToIDCS] at he
  rcases hq : env.idcsUserLookup (trimSpace person.userID) with _ | ⟨st, id⟩ <;> rw [hq] at he <;>
    dsimp only at he
  · simp at he
    subst he
    rfl
  · split at he
    · simp at he
      subst he
      rfl
    · split at he
      · rcases hc : env.idcsUserCreate (buildIdcsCreatePayload cfg person) with _ | ⟨st2, bid⟩ <;>
          rw [hc] at he <;> dsimp only at he
        · simp at he
          rcases he with rfl | rfl <;> rfl
        · split at he <;> simp at he <;> rcases he with rfl | rfl <;> rfl
      · simp at he
        subst he
        rfl

theorem addGroupsLoop_no_removal (cfg : Config) (env : SyncEnv) (uid : List Char)
    (names : List (List Char)) :
    ∀ e ∈ (addGroupsLoop cfg env uid names).2, e.isRemoval = false := by
  induction names with
  | nil => simp [addGroupsLoop]
  | cons g gs ih =>
    intro e he
    simp only [addGroupsLoop] at he
    rcases hq : env.idcsGroupLookup (trimSpace g) with _ | ⟨st, gid⟩ <;> rw [hq] at he <;>
      dsimp only at he
    · simp at he
      subst he
      rfl
    · split at he
      · simp at he
        subst he
        rfl
      · split at he
        · simp at he
          subst he
          rfl
        · rcases hp : env.idcsGroupPatch gid
              (replaceSeq "%USERID%".data uid cfg.idcsAddUserToGroupPayload) with _ | st2 <;>
            rw [hp] at he <;> dsimp only at he
          · simp at he
            rcases he with rfl | rfl <;> rfl
          · split at he
            · simp at he
              rcases he with rfl | rfl <;> rfl
            · rcases hr : addGroupsLoop cfg env uid gs with ⟨r, t⟩
              rw [hr] at he
              dsimp only at he
              simp at he
              rcases he with rfl | rfl | hmem
              · rfl
              · rfl
              · have hmm := ih e
                rw [hr] at hmm
                exact hmm hmem

theorem addUserToIDCSGroups_no_removal (cfg : Config) (env : SyncEnv)
    (person : AriaServicePerson) (uid : List Char) :
    ∀ e ∈ (addUserToIDCSGroups cfg env person uid).2, e.isRemoval = false := by
  simp only [addUserToIDCSGroups]
  exact addGroupsLoop_no_removal cfg env uid _

theorem addUserToVBCSApp_no_removal (app tAdd tUpd ur mr : List Char) (env : SyncEnv)
    (person : AriaServicePerson) :
    ∀ e ∈ (addUserToVBCSApp app tAdd tUpd ur mr env person).2, e.isRemoval = false := by
  intro e he
  simp only [addUserToVBCSApp] at he
  rcases hq : env.vbcsUserLookup app person.userID with _ | ⟨st, pid⟩ <;> rw [hq] at he <;>
    dsimp only at he
  · simp at he
    subst he
    rfl
  · split at he
    · simp at he
      subst he
      rfl
    · split at he
      · rcases hu : env.vbcsUserUpdate app pid
            (buildVbcsPayload tUpd ur mr person) with _ | st2 <;>
          rw [hu] at he <;> dsimp only at he <;> simp at he <;>
          rcases he with rfl | rfl <;> rfl
      · rcases hc : env.vbcsUserCreate app
            (buildVbcsPayload tAdd ur mr person) with _ | st2 <;>
          rw [hc] at he <;> dsimp only at he <;> simp at he <;>
          rcases he with rfl | rfl <;> rfl

theorem addIDCSVBCSUser_no_removal (cfg : Config) (env : SyncEnv) (person : AriaServicePerson) :
    ∀ e ∈ (addIDCSVBCSUser cfg env person).2, e.isRemoval = false := by
  intro e he
  simp only [addIDCSVBCSUser] at he
  rcases hconv : convertManagerDnToEmail person.manager with _ | mgr <;> rw [hconv] at he <;>
    dsimp only at he
  · simp at he
  · rcases h1 : addUserToIDCS cfg env { person with manager := mgr } with ⟨r1, t1⟩
    rw [h1] at he
    have ht1 : ∀ x ∈ t1, x.isRemoval = false := by
      intro x hx
      have h := addUserToIDCS_no_removal cfg env { person with manager := mgr } x
      rw [h1] at h
      exact h hx
    rcases r1 with e1 | uid <;> dsimp only at he
    · exact ht1 e he
    · rcases h2 : (if uid.length > 0 then
          addUserToIDCSGroups cfg env { person with manager := mgr } uid
        else (.ok (), [])) with ⟨r2, t2⟩
      rw [h2] at he
      have ht2 : ∀ x ∈ t2, x.isRemoval = false := by
        intro x hx
        by_cases hlen : uid.length > 0
        · rw [if_pos hlen] at h2
          have h := addUserToIDCSGroups_no_removal cfg env { person with manager := mgr } uid x
          rw [h2] at h
          exact h hx
        · rw [if_neg hlen] at h2
          cases h2
          simp at hx
      rcases r2 with e2 | u2 <;> dsimp only at he
      · simp only [List.mem_append] at he
        rcases he with h | h
        · exact ht1 e h
        · exact ht2 e h
      · split at he
        · rcases h3 : addUserToVBCSApp "STS".data cfg.stsUserAddPayload
              cfg.stsUpdateManagerPayload cfg.stsUserRoleCode cfg.stsManagerRoleCode env
              { person with manager := mgr } with ⟨r3, t3⟩
          rw [h3] at he
          dsimp only at he
          simp only [List.mem_append] at he
          rcases he with (h | h) | h
          · exact ht1 e h
          · exact ht2 e h
          · have hh := addUserToVBCSApp_no_removal "STS".data cfg.stsUserAddPayload
              cfg.stsUpdateManagerPayload cfg.stsUserRoleCode cfg.stsManagerRoleCode env
              { person with manager := mgr } e
            rw [h3] at hh
            exact hh h
        · simp only [List.mem_append] at he
          rcases he with h | h
          · exact ht1 e h
          · exact ht2 e h

theorem phase1Loop_add_no_removal (cfg : Config) (env : SyncEnv)
    (ps : List AriaServicePerson) :
    ∀ e ∈ (phase1Loop .add cfg env ps).2.1, e.isRemoval = false := by
  induction ps with
  | nil => simp [phase1Loop]
  | cons p ps ih =>
    intro e he
    simp only [phase1Loop, phase1Step] at he
    rcases h1 : addIDCSVBCSUser cfg env p with ⟨r1, t1⟩
    rw [h1] at he
    have ht1 : ∀ x ∈ t1, x.isRemoval = false := by
      intro x hx
      have h := addIDCSVBCSUser_no_removal cfg env p x
      rw [h1] at h
      exact h hx
    rcases r1 with e1 | u <;> dsimp only at he
    · split at he
      · exact ht1 e he
      · rcases hr : phase1Loop .add cfg env ps with ⟨n, t2, c⟩
        rw [hr] at he
        dsimp only at he
        simp only [List.mem_append] at he
        rcases he with h | h
        · exact ht1 e h
        · have hmm := ih e
          rw [hr] at hmm
          exact hmm h
    · rcases hr : phase1Loop .add cfg env ps with ⟨n, t2, c⟩
      rw [hr] at he
      dsimp only at he
      simp only [List.mem_append] at he
      rcases he with h | h
      · exact ht1 e h
      · have hmm := ih e
        rw [hr] at hmm
        exact hmm h

theorem phase1Loop_add_count (cfg : Config) (env : SyncEnv) (ps : List AriaServicePerson)
    (h : ∀ p ∈ ps, stepPanicked (addIDCSVBCSUser cfg env p).1 = false) :
    (phase1Loop .add cfg env ps).1
        = (ps.filter (fun p => isOkE (addIDCSVBCSUser cfg env p).1)).length
      ∧ (phase1Loop .add cfg env ps).2.2 = false := by
  induction ps with
  | nil => exact ⟨rfl, rfl⟩
  | cons p ps ih =>
    have hp : stepPanicked (addIDCSVBCSUser cfg env p).1 = false := h p (by simp)
    have hrest := ih (fun q hq => h q (by simp [hq]))
    simp only [phase1Loop, phase1Step]
    rcases h1 : addIDCSVBCSUser cfg env p with ⟨r1, t1⟩
    rw [h1] at hp
    rcases hr : phase1Loop .add cfg env ps with ⟨n, t2, c⟩
    rw [hr] at hrest
    rcases r1 with e1 | u
    · have hnp : e1.isPanic = false := by simpa [stepPanicked] using hp
      have hnok : isOkE (addIDCSVBCSUser cfg env p).1 = false := by
        rw [h1]
        rfl
      dsimp only
      rw [hnp]
      simp [List.filter_cons, hnok]
      exact ⟨hrest.1, hrest.2⟩
    · have hok : isOkE (addIDCSVBCSUser cfg env p).1 = true := by
        rw [h1]
        rfl
      simp [List.filter_cons, hok]
      exact ⟨hrest.1, hrest.2⟩

/-- C5: in Add mode, when no per-person step panics, the first loop
counts exactly the persons whose `addIDCSVBCSUser` returned no error,
the loop runs to completion (never crashes), and no removal effect is
ever issued — a failing person's already-completed steps are not
rolled back; the failure only skips that person's remaining steps. -/
theorem addMode_per_person_isolation (cfg : Config) (env : SyncEnv)
    (ps : List AriaServicePerson)
    (hnp : ∀ p ∈ ps, stepPanicked (addIDCSVBCSUser cfg env p).1 = false) :
    (phase1Loop .add cfg env ps).1
        = (ps.filter (fun p => isOkE (addIDCSVBCSUser cfg env p).1)).length
      ∧ (phase1Loop .add cfg env ps).2.2 = false
      ∧ ∀ e ∈ (phase1Loop .add cfg env ps).2.1, e.isRemoval = false :=
  ⟨(phase1Loop_add_count cfg env ps hnp).1, (phase1Loop_add_count cfg env ps hnp).2,
   phase1Loop_add_no_removal cfg env ps⟩

/-- Witness for C5: an Add run over 3 persons where exactly the second
person's business-app (STS) lookup fails at the transport level counts
exactly 2 persons; the failing person's IDCS create effect is still in
the trace (not rolled back) and the loop did not crash. -/
theorem addMode_per_person_isolation_witness :
    (phase1Loop .add testCfg c5env [p1, p2, p3]).1
        = ([p1, p2, p3].filter
            (fun p => isOkE (addIDCSVBCSUser testCfg c5env p).1)).length
    ∧ ([p1, p2, p3].filter
        (fun p => isOkE (addIDCSVBCSUser testCfg c5env p).1)).length = 2
    ∧ isOkE (addIDCSVBCSUser testCfg c5env p2).1 = false
    ∧ Effect.idcsUserCreate "p2@x.com".data (buildIdcsCreatePayload testCfg p2)
        ∈ (phase1Loop .add testCfg c5env [p1, p2, p3]).2.1
    ∧ (phase1Loop .add testCfg c5env [p1, p2, p3]).2.2 = false :=
  ⟨(addMode_per_person_isolation testCfg c5env [p1, p2, p3] (by decide)).1,
   by decide, by decide, by decide,
   (addMode_per_person_isolation testCfg c5env [p1, p2, p3] (by decide)).2.1⟩

theorem cleanLoop_offered (cfg : Config) (env : SyncEnv) (people : List AriaServicePerson)
    (listing : List (List Char)) :
    ∀ console, (cleanLoop cfg env people listing console).2.1
      = listing.filter
          (fun e => !(people.any fun p => p.userID == e) && !containsSeq "cto-test".data e) := by
  induction listing with
  | nil =>
    intro console
    rfl
  | cons email rest ih =>
    intro console
    simp only [cleanLoop]
    by_cases hb : (!(people.any fun p => p.userID == email)
        && !containsSeq "cto-test".data email) = true
    · rw [if_pos hb]
      by_cases hcf : confirmText (console.headD []) = true
      · rw [if_pos hcf]
        rcases hd1 : deleteIDCSVBCSUser cfg env (synthPerson email) with ⟨r1, t1⟩
        rcases hd2 : deleteOCEUser cfg env (synthPerson email) with ⟨r2, t2⟩
        rcases hrec : cleanLoop cfg env people rest console.tail with ⟨n, offs, t⟩
        have hih := ih console.tail
        rw [hrec] at hih
        dsimp only at hih
        simp [List.filter_cons, hb, hih]
      · rw [if_neg hcf]
        rcases hrec : cleanLoop cfg env people rest console.tail with ⟨n, offs, t⟩
        have hih := ih console.tail
        rw [hrec] at hih
        dsimp only at hih
        simp [List.filter_cons, hb, hih]
    · rw [if_neg hb]
      have hih := ih console
      simp [List.filter_cons, hb, hih]

/-- C6: in clean mode, the emails offered for removal are exactly the
listed emails absent from the roster map and not containing
`cto-test`; concretely, for roster `a@x.com, b@x.com` and listing
`a@x.com, b@x.com, stray@x.com, cto-test@x.com`, exactly `stray@x.com`
is offered; on a `Y` confirmation the delete-path steps run on the
synthesized person keyed by the listed email (IDCS and OCE lookups for
`stray@x.com` appear in the trace), the removal tally is 1 when every
removal step succeeded, and 0 when the content-share revoke fails. -/
theorem cleanMode_diff_and_tally :
    (∀ cfg env people listing console,
       (cleanLoop cfg env people listing console).2.1
         = listing.filter
             (fun e => !(people.any fun p => p.userID == e)
               && !containsSeq "cto-test".data e))
    ∧ (cleanLoop testCfg delOkEnv [perA, perB]
        ["a@x.com".data, "b@x.com".data, "stray@x.com".data, "cto-test@x.com".data]
        ["Y\n".data]).2.1 = ["stray@x.com".data]
    ∧ (cleanLoop testCfg delOkEnv [perA, perB]
        ["a@x.com".data, "b@x.com".data, "stray@x.com".data, "cto-test@x.com".data]
        ["Y\n".data]).1 = 1
    ∧ Effect.idcsUserLookup "stray@x.com".data ∈ (cleanLoop testCfg delOkEnv [perA, perB]
        ["a@x.com".data, "b@x.com".data, "stray@x.com".data, "cto-test@x.com".data]
        ["Y\n".data]).2.2
    ∧ Effect.oceUserLookup "stray@x.com".data ∈ (cleanLoop testCfg delOkEnv [perA, perB]
        ["a@x.com".data, "b@x.com".data, "stray@x.com".data, "cto-test@x.com".data]
        ["Y\n".data]).2.2
    ∧ (cleanLoop testCfg delFailEnv [perA, perB]
        ["a@x.com".data, "b@x.com".data, "stray@x.com".data, "cto-test@x.com".data]
        ["Y\n".data]).1 = 0 :=
  ⟨fun cfg env people listing console => cleanLoop_offered cfg env people listing console,
   by decide, by decide, by decide, by decide, by decide⟩

theorem addGroupsLoop_lookup_names (cfg : Config) (env : SyncEnv) (uid : List Char)
    (names : List (List Char)) :
    ∀ n, Effect.idcsGroupLookup n ∈ (addGroupsLoop cfg env uid names).2 →
      ∃ g, g ∈ names ∧ n = trimSpace g := by
  induction names with
  | nil => simp [addGroupsLoop]
  | cons g gs ih =>
    intro n hn
    simp only [addGroupsLoop] at hn
    rcases hq : env.idcsGroupLookup (trimSpace g) with _ | ⟨st, gid⟩ <;> rw [hq] at hn <;>
      dsimp only at hn
    · simp at hn
      exact ⟨g, by simp, hn⟩
    · split at hn
      · simp at hn
        exact ⟨g, by simp, hn⟩
      · split at hn
        · simp at hn
          exact ⟨g, by simp, hn⟩
        · rcases hp : env.idcsGroupPatch gid
              (replaceSeq "%USERID%".data uid cfg.idcsAddUserToGroupPayload) with _ | st2 <;>
            rw [hp] at hn <;> dsimp only at hn
          · simp at hn
            exact ⟨g, by simp, hn⟩
          · split at hn
            · simp at hn
              exact ⟨g, by simp, hn⟩
            · rcases hr : addGroupsLoop cfg env uid gs with ⟨r, t⟩
              rw [hr] at hn
              dsimp only at hn
              simp at hn
              rcases hn with rfl | hmem
              · exact ⟨g, by simp, rfl⟩
              · have hmm := ih n
                rw [hr] at hmm
                rcases hmm hmem with ⟨g2, hg2, hng⟩
                exact ⟨g2, by simp [hg2], hng⟩

theorem buildVbcsPayload_role (t ur mr : List Char) (p : AriaServicePerson) :
    buildVbcsPayload t ur mr p
      = replaceSeq "%ROLE%".data (if p.numberOfDirects > 0 then mr else ur)
          (buildVbcsBase t p) := by
  by_cases h : p.numberOfDirects > 0 <;> simp [buildVbcsPayload, h]

/-- C7: the role-dependent choices are a pure function of
`numberOfDirects`: every group name looked up by
`addUserToIDCSGroups` comes from the comma-split manager list when
`numberOfDirects > 0` and from the user list otherwise, and every
create/update payload issued by `addUserToVBCSApp` interpolates the
manager role code when `numberOfDirects > 0` and the user role code
otherwise. -/
theorem roleDependentChoices (cfg : Config) (env : SyncEnv) (p : AriaServicePerson)
    (uid app tAdd tUpd ur mr : List Char) :
    (∀ n, Effect.idcsGroupLookup n ∈ (addUserToIDCSGroups cfg env p uid).2 →
       ∃ g, g ∈ splitOnChar ','
             (if p.numberOfDirects > 0 then cfg.managerGroupNames else cfg.userGroupNames)
           ∧ n = trimSpace g)
    ∧ (∀ pl, Effect.vbcsCreate app pl ∈ (addUserToVBCSApp app tAdd tUpd ur mr env p).2 →
       pl = replaceSeq "%ROLE%".data (if p.numberOfDirects > 0 then mr else ur)
              (buildVbcsBase tAdd p))
    ∧ (∀ pid pl, Effect.vbcsUpdate app pid pl ∈ (addUserToVBCSApp app tAdd tUpd ur mr env p).2 →
       pl = replaceSeq "%ROLE%".data (if p.numberOfDirects > 0 then mr else ur)
              (buildVbcsBase tUpd p)) := by
  refine ⟨?_, ?_, ?_⟩
  · intro n hn
    simp only [addUserToIDCSGroups] at hn
    exact addGroupsLoop_lookup_names cfg env uid _ n hn
  · intro pl hpl
    simp only [addUserToVBCSApp] at hpl
    rcases hq : env.vbcsUserLookup app p.userID with _ | ⟨st, pid⟩ <;> rw [hq] at hpl <;>
      dsimp only at hpl
    · simp at hpl
    · split at hpl
      · simp at hpl
      · split at hpl
        · rcases hu : env.vbcsUserUpdate app pid (buildVbcsPayload tUpd ur mr p) with _ | st2 <;>
            rw [hu] at hpl <;> dsimp only at hpl <;> simp at hpl
        · rcases hc : env.vbcsUserCreate app (buildVbcsPayload tAdd ur mr p) with _ | st2 <;>
            rw [hc] at hpl <;> dsimp only at hpl <;> simp at hpl <;>
            rw [hpl, buildVbcsPayload_role]
  · intro pid2 pl hpl
    simp only [addUserToVBCSApp] at hpl
    rcases hq : env.vbcsUserLookup app p.userID with _ | ⟨st, pid⟩ <;> rw [hq] at hpl <;>
      dsimp only at hpl
    · simp at hpl
    · split at hpl
      · simp at hpl
      · split at hpl
        · rcases hu : env.vbcsUserUpdate app pid (buildVbcsPayload tUpd ur mr p) with _ | st2 <;>
            rw [hu] at hpl <;> dsimp only at hpl <;> simp at hpl <;>
            rw [hpl.2, buildVbcsPayload_role]
        · rcases hc : env.vbcsUserCreate app (buildVbcsPayload tAdd ur mr p) with _ | st2 <;>
            rw [hc] at hpl <;> dsimp only at hpl <;> simp at hpl

/-- Witness for C7: applied to a person with zero direct reports, whose
trace contains a lookup of the first user-list group. -/
theorem roleDependentChoices_witness :
    ∃ g, g ∈ splitOnChar ','
          (if jane.numberOfDirects > 0 then testCfg.managerGroupNames else testCfg.userGroupNames)
        ∧ "UsrA".data = trimSpace g :=
  (roleDependentChoices testCfg okEnv jane "uid1".data "STS".data
      testCfg.stsUserAddPayload testCfg.stsUpdateManagerPayload
      testCfg.stsUserRoleCode testCfg.stsManagerRoleCode).1
    "UsrA".data (by decide)

/-- C9 counterexample: with the decoder behavior Go's `encoding/json`
exhibits on the body whose `num_directs` holds a string — `Decode`
returns an `UnmarshalTypeError` but keeps decoding, leaving `Items`
non-empty — a status-200 response whose body does not decode as a
valid person-list document yields a run that proceeds with a
NON-empty roster (one person, with the typed fields it could decode),
refuting the claim's "retrieved zero persons". -/
theorem ariaDecode_partial_counterexample :
    partialAriaEnv.decodeErr partialDecodeBody = true
    ∧ getPeopleFromAria partialAriaEnv = .ok [partialPerson]
    ∧ ([partialPerson] : List AriaServicePerson) ≠ [] :=
  ⟨rfl, rfl, by decide⟩

/-- C9 (amended): `getPeopleFromAria` discards `Decode`'s error on a
status-200 roster response — no fatal error is raised even when the
body fails to decode, and the run proceeds with exactly the entries
`Decode` populated into the struct; in particular, when the failed
decode populated nothing (as with a JSON syntax error), the run
proceeds having retrieved zero persons. -/
theorem ariaDecodeError_discarded (env : AriaEnv) (body : List Char)
    (h1 : env.ariaResp = .resp 200 body) (h2 : env.decodeErr body = true) :
    getPeopleFromAria env = .ok (env.decodeItems body)
    ∧ (env.decodeItems body = [] → getPeopleFromAria env = .ok []) := by
  refine ⟨by simp [getPeopleFromAria, h1], fun hz => by simp [getPeopleFromAria, h1, hz]⟩

/-- Witness for C9: the amended theorem applied at a concrete
environment whose body fails to decode with nothing populated. -/
theorem ariaDecodeError_discarded_witness :
    getPeopleFromAria syntaxErrAriaEnv
      = .ok (syntaxErrAriaEnv.decodeItems "this body is not a person list".data)
    ∧ getPeopleFromAria syntaxErrAriaEnv = .ok [] :=
  ⟨(ariaDecodeError_discarded syntaxErrAriaEnv "this body is not a person list".data rfl rfl).1,
   (ariaDecodeError_discarded syntaxErrAriaEnv "this body is not a person list".data rfl rfl).2
     rfl⟩

theorem deleteIDCSVBCSUser_trace_ne_nil (cfg : Config) (env : SyncEnv)
    (p : AriaServicePerson) : (deleteIDCSVBCSUser cfg env p).2 ≠ [] := by
  simp only [deleteIDCSVBCSUser]
  rcases hq : env.idcsUserLookup (trimSpace p.userID) with _ | ⟨st, id⟩ <;> dsimp only
  · simp
  · split
    · simp
    · split
      · simp
      · rcases hd : env.idcsUserDelete id with _ | st2 <;> dsimp only
        · simp
        · split
          · simp
          · rcases h1 : deleteUserFromVBCSApp "ECAL".data env p with ⟨r1, t1⟩
            rcases r1 with e1 | u1 <;> dsimp only
            · simp
            · rcases h2 : deleteUserFromVBCSApp "STS".data env p with ⟨r2, t2⟩
              dsimp only
              simp

/-- C10: in clean mode a candidate entity's removal steps run exactly
when the console response, after removing newline characters,
upper-cases to the single string `Y`; any other response skips the
removal (no delete effects) and the entity is not counted in the
removal tally. -/
theorem cleanConfirmation (cfg : Config) (env : SyncEnv) (email text : List Char)
    (hct : containsSeq "cto-test".data email = false) :
    ((cleanLoop cfg env [] [email] [text]).2.2 ≠ []
        ↔ toUpperChars (replaceSeq ['\n'] [] text) = ['Y'])
    ∧ (¬(toUpperChars (replaceSeq ['\n'] [] text) = ['Y']) →
        (cleanLoop cfg env [] [email] [text]).1 = 0
        ∧ (cleanLoop cfg env [] [email] [text]).2.2 = []) := by
  have hcond : (!(List.any ([] : List AriaServicePerson) fun p => p.userID == email)
      && !containsSeq "cto-test".data email) = true := by
    simp [hct]
  by_cases hcf : confirmText text = true
  · have hY : toUpperChars (replaceSeq ['\n'] [] text) = ['Y'] := by
      simpa [confirmText] using hcf
    rcases hd1 : deleteIDCSVBCSUser cfg env (synthPerson email) with ⟨r1, t1⟩
    rcases hd2 : deleteOCEUser cfg env (synthPerson email) with ⟨r2, t2⟩
    have hval : cleanLoop cfg env [] [email] [text]
        = ((if isOkE r1 && isOkE r2 then 1 else 0), [email], t1 ++ t2 ++ []) := by
      simp only [cleanLoop, List.headD_cons, List.tail_cons]
      rw [if_pos hcond, if_pos hcf, hd1, hd2]
    rw [hval]
    have ht1 : t1 ≠ [] := by
      have hh := deleteIDCSVBCSUser_trace_ne_nil cfg env (synthPerson email)
      rw [hd1] at hh
      exact hh
    refine ⟨iff_of_true ?_ hY, fun hcontra => absurd hY hcontra⟩
    intro hC
    dsimp only at hC
    rcases List.append_eq_nil.mp hC with ⟨hC1, _⟩
    rcases List.append_eq_nil.mp hC1 with ⟨hC2, _⟩
    exact ht1 hC2

  · have hY : ¬(toUpperChars (replaceSeq ['\n'] [] text) = ['Y']) := by
      intro hy
      exact hcf (by simp [confirmText, hy])
    have hval : cleanLoop cfg env [] [email] [text] = (0, [email], []) := by
      simp only [cleanLoop, List.headD_cons, List.tail_cons]
      rw [if_pos hcond, if_neg hcf]
    rw [hval]
    exact ⟨iff_of_false (by simp) hY, fun _ => ⟨rfl, rfl⟩⟩

/-- Witness for C10: `Y` (followed by the newline read from the
console) triggers removal; `yes` skips it and counts nothing. -/
theorem cleanConfirmation_witness :
    ((cleanLoop testCfg delOkEnv [] ["stray@x.com".data] ["Y\n".data]).2.2 ≠ []
        ↔ toUpperChars (replaceSeq ['\n'] [] "Y\n".data) = ['Y'])
    ∧ ((cleanLoop testCfg delOkEnv [] ["stray@x.com".data] ["yes\n".data]).1 = 0
        ∧ (cleanLoop testCfg delOkEnv [] ["stray@x.com".data] ["yes\n".data]).2.2 = []) :=
  ⟨(cleanConfirmation testCfg delOkEnv "stray@x.com".data "Y\n".data (by decide)).1,
   (cleanConfirmation testCfg delOkEnv "stray@x.com".data "yes\n".data (by decide)).2
     (by decide)⟩

end CtoSync
